import Mathlib

/-!
Verification development for the PDF redaction tool.

The core of the tool (module pdf_redactor, class PDFRedactor) is embedded
shallowly below:

* text layout data (blocks, lines, spans with rational bounding boxes),
* the literal case-insensitive scanning search and the regex locator,
* geometry projection from character offsets to sub-rectangles,
* the redaction planner (pattern-major loop over pages, with an event
  trace recording locate / mark / commit calls to the document library),
* the preview planner and its summary aggregation,
* the qpdf optimizer invocation and the temporary-file lifecycle.

External collaborators (the PDF library page.search_for, the regex engine,
redaction application, the filesystem and the qpdf subprocess) are
passed in as explicit parameters or outcome values, so every embedded
function is a pure, executable Lean definition. Coordinates use the
rationals; character offsets use the naturals. Python str.lower is
modelled character-wise (Char.toLower), which preserves string length.
-/

/-- A rectangle (x0, y0, x1, y1), as pymupdf bbox tuples. -/
structure Rect where
  x0 : ℚ
  y0 : ℚ
  x1 : ℚ
  y1 : ℚ
deriving DecidableEq, Repr

/-- One text span of the page layout dictionary: a run of glyphs with
one bounding box.  Its text is a list of characters. -/
structure Span where
  text : List Char
  x0 : ℚ
  y0 : ℚ
  x1 : ℚ
  y1 : ℚ
deriving DecidableEq, Repr

/-- One line of a layout block: a list of spans. -/
structure Line where
  spans : List Span
deriving DecidableEq, Repr

/-- One block of the page layout dictionary returned by
page.get_text("dict"): blocks without a "lines" key (image blocks)
carry none. -/
structure Block where
  lines : Option (List Line)
deriving DecidableEq, Repr

/-- The text layout of a single page. -/
structure PageC where
  blocks : List Block
deriving DecidableEq, Repr

/-- The lines of a block; empty for a block without a "lines" key
(those are skipped by the loops in pdf_redactor). -/
def linesOf (b : Block) : List Line :=
  b.lines.getD []

/-- All spans of a page in reading order, flattening
blocks to lines to spans exactly as the nested loops do. -/
def pageSpans (page : PageC) : List Span :=
  page.blocks.flatMap (fun b => (linesOf b).flatMap (fun l => l.spans))

/-- Python exception values raised by the embedded code paths. -/
inductive PyError where
  | calledProcessError (returncode : Int)
  | redactionError (msg : String)
  | otherError (msg : String)
deriving DecidableEq, Repr

/-- Human-readable text of an exception, as used when re-wrapping. -/
def describeError : PyError → String
  | PyError.calledProcessError rc =>
      "Command qpdf returned non-zero exit status " ++ toString rc
  | PyError.redactionError m => m
  | PyError.otherError m => m

/-- Outcome of invoking the external qpdf binary via subprocess.run:
either the process completed with some exit status, or the binary was
absent (FileNotFoundError). -/
inductive QpdfOutcome where
  | completed (returncode : Int)
  | binaryMissing
deriving DecidableEq, Repr

/-- QPDF_SUCCESS_CODES = {0, 2, 3} from pdf_redactor: 0 success,
2 recoverable errors, 3 warnings. -/
def QPDF_SUCCESS_CODES : List Int := [0, 2, 3]

/-- The remediation message raised when the qpdf binary is missing. -/
def qpdfNotFoundMessage : String :=
  "qpdf not found. Please install qpdf:\n" ++
  "  macOS: brew install qpdf\n" ++
  "  Ubuntu: sudo apt-get install qpdf"

/-- PDFRedactor._optimize_with_qpdf: accept exit statuses in
QPDF_SUCCESS_CODES, raise CalledProcessError on any other status, and
raise RedactionError with an installation hint when the binary is
missing. -/
def optimize_with_qpdf (outcome : QpdfOutcome) : Except PyError Unit :=
  match outcome with
  | QpdfOutcome.completed rc =>
      if rc ∈ QPDF_SUCCESS_CODES then Except.ok ()
      else Except.error (PyError.calledProcessError rc)
  | QpdfOutcome.binaryMissing =>
      Except.error (PyError.redactionError qpdfNotFoundMessage)

/-- A filesystem, modelled as the list of existing file names. -/
def FS : Type := List String

/-- os.path.exists. -/
def fileExists (fs : FS) (name : String) : Bool :=
  List.contains fs name

/-- Creating (writing) a file: the name exists afterwards. -/
def createFile (fs : FS) (name : String) : FS :=
  if fileExists fs name then fs else List.cons name fs

/-- os.remove. -/
def removeFile (fs : FS) (name : String) : FS :=
  List.filter (fun f => f != name) fs

/-- PDFRedactor._temp_pdf_file: create a named temporary file, run the
body, and in a finally block remove the file if it still exists.  The
body receives the filesystem and the temporary name and returns the new
filesystem together with a normal or exceptional result. -/
def tempPdfFile {α : Type} (fs : FS) (tempName : String)
    (body : FS → String → FS × Except PyError α) : FS × Except PyError α :=
  let fs1 := createFile fs tempName
  let r := body fs1 tempName
  (if fileExists r.1 tempName then removeFile r.1 tempName else r.1, r.2)

/-- PDFRedactor._save_and_optimize: inside the temporary-file scope,
save the document to the temporary path, run qpdf from it to the output
path, and re-wrap any exception as a RedactionError.  The save step and
the qpdf invocation are external effects, supplied as outcome values;
on a successful save the temporary file is (re)written, on a successful
optimization the output file is written. -/
def save_and_optimize (fs : FS) (tempName outputFile : String)
    (saveOutcome : Except PyError Unit) (qpdfOutcome : QpdfOutcome) :
    FS × Except PyError Unit :=
  tempPdfFile fs tempName (fun fs1 temp =>
    match saveOutcome with
    | Except.error e =>
        (fs1, Except.error (PyError.redactionError
          ("Failed to save or optimize PDF: " ++ describeError e)))
    | Except.ok _ =>
        let fs2 := createFile fs1 temp
        match optimize_with_qpdf qpdfOutcome with
        | Except.error e =>
            (fs2, Except.error (PyError.redactionError
              ("Failed to save or optimize PDF: " ++ describeError e)))
        | Except.ok _ => (createFile fs2 outputFile, Except.ok ()))

/-- Python str.lower, modelled character-wise. -/
def lowerStr (s : List Char) : List Char :=
  s.map Char.toLower

/-- Whether pat occurs in t at position p (Python substring containment
at a fixed index; positions up to t.length are admissible, so the empty
pattern occurs at every position 0..t.length). -/
def matchesAt (t pat : List Char) (p : ℕ) : Bool :=
  decide (p ≤ t.length) && decide ((t.drop p).take pat.length = pat)

/-- Python str.find(pat, start): the least admissible position at or
after start where pat occurs, none when there is no such position. -/
def strFind (t pat : List Char) (start : ℕ) : Option ℕ :=
  (List.range' start (t.length + 1 - start)).find? (matchesAt t pat)

/-- The while loop of _case_insensitive_search: repeatedly find the
next occurrence and advance the cursor one character past the match
start.  The fuel argument bounds the iteration count; scanPositions
below supplies enough fuel for the loop to run to completion. -/
def scanLoop (t pat : List Char) : ℕ → ℕ → List ℕ
  | 0, _ => []
  | fuel + 1, start =>
      match strFind t pat start with
      | none => []
      | some pos => pos :: scanLoop t pat fuel (pos + 1)

/-- All match start positions produced by the scanning loop of
_case_insensitive_search, beginning at cursor start. -/
def scanPositions (t pat : List Char) (start : ℕ) : List ℕ :=
  scanLoop t pat (t.length + 1 - start) start

/-- The canonical enumeration of every position at which pat occurs in
t, in increasing order.  (Specification-side definition, following the
wording of the claims; the theorems below compare the code against it.) -/
def allOccurrences (t pat : List Char) : List ℕ :=
  (List.range (t.length + 1)).filter (matchesAt t pat)

/-- The geometry projection shared by _case_insensitive_search and
_find_regex_instances: char_width = (x1 - x0) / len(text) (0 for empty
text), left edge x0 + start_offset * char_width, right edge
x0 + end_offset * char_width, full span height retained. -/
def occRect (sp : Span) (startOff endOff : ℕ) : Rect :=
  let char_width : ℚ :=
    if sp.text.isEmpty then 0 else (sp.x1 - sp.x0) / sp.text.length
  ⟨sp.x0 + (startOff : ℚ) * char_width, sp.y0,
   sp.x0 + (endOff : ℚ) * char_width, sp.y1⟩

/-- PDFRedactor._case_insensitive_search: lower-case the pattern and
each span text, scan every span of every line of every text block for
occurrences, and project each occurrence (match start, match start plus
pattern length) to a rectangle.  The search_flags argument is received
but unused, as in the source. -/
def case_insensitive_search (page : PageC) (pattern : List Char)
    (search_flags : Int) : List Rect :=
  let pattern_lower := lowerStr pattern
  page.blocks.flatMap (fun block =>
    (linesOf block).flatMap (fun line =>
      line.spans.flatMap (fun span =>
        (scanPositions (lowerStr span.text) pattern_lower 0).map
          (fun pos => occRect span pos (pos + pattern.length)))))

/-- PDFRedactor._filter_whole_words: iterates over the instances and
appends every one of them to the output (the TODO word-boundary check
is not implemented). -/
def filter_whole_words (page : PageC) (instances : List Rect)
    (pattern : List Char) : List Rect :=
  instances.foldl (fun filtered_instances inst =>
    filtered_instances ++ [inst]) []

/-- A compiled regex object of the external engine: finditer yields the
non-overlapping match spans within a text.  The engine contract (Python
re) guarantees every match span lies within the searched string. -/
structure RegexEngine where
  finditer : List Char → List (ℕ × ℕ)
  finditer_valid : ∀ t m, m ∈ finditer t → m.1 ≤ m.2 ∧ m.2 ≤ t.length

/-- The two characters of the ASCII word-boundary anchor backslash-b. -/
def wordBoundaryAnchor : List Char := ['\\', 'b']

/-- The diagnostic logged for a pattern that fails to compile. -/
def mkRegexDiag (pattern2 : List Char) (e : String) : String :=
  "Invalid regex pattern " ++ String.mk pattern2 ++ ": " ++ e

/-- PDFRedactor._find_regex_instances: wrap the pattern in word
boundaries when whole_words_only, compile it with the ignore-case flag
when not case_sensitive; a compile failure is caught, logged as a
diagnostic and yields no instances.  On success, every span of every
line of every text block is searched with finditer and each match span
is projected to a rectangle.  Returns the instance list together with
the diagnostics that were logged. -/
def find_regex_instances
    (compile : List Char → Bool → Except String RegexEngine)
    (page : PageC) (pattern : List Char)
    (case_sensitive whole_words_only : Bool) :
    List Rect × List String :=
  let ignoreCase := !case_sensitive
  let pattern2 :=
    if whole_words_only then
      wordBoundaryAnchor ++ pattern ++ wordBoundaryAnchor
    else pattern
  match compile pattern2 ignoreCase with
  | Except.error e => ([], [mkRegexDiag pattern2 e])
  | Except.ok rgx =>
      (page.blocks.flatMap (fun block =>
        (linesOf block).flatMap (fun line =>
          line.spans.flatMap (fun span =>
            (rgx.finditer span.text).map
              (fun m => occRect span m.1 m.2)))), [])

/-- The external collaborators of the planner: the PDF library span
search (page.search_for), the regex compiler (re.compile), the
application of accumulated redaction marks to a page
(page.apply_redactions after add_redact_annot), and the library flag
constant pymupdf.TEXT_DEHYPHENATE. -/
structure Collaborators where
  searchFor : PageC → List Char → Int → List Rect
  compile : List Char → Bool → Except String RegexEngine
  applyRed : PageC → List Rect → PageC
  textDehyphenate : Int

/-- PDFRedactor._find_text_instances: case-sensitive search is
delegated to the library, case-insensitive search is done manually;
when whole_words_only is set, the instances are passed through
_filter_whole_words. -/
def find_text_instances (C : Collaborators) (page : PageC)
    (pattern : List Char) (case_sensitive whole_words_only : Bool)
    (search_flags : Int) : List Rect :=
  let instances :=
    if case_sensitive then C.searchFor page pattern search_flags
    else case_insensitive_search page pattern search_flags
  if whole_words_only then filter_whole_words page instances pattern
  else instances

/-- One call to the document library during a run: locating the
instances of a pattern on a page (a read), adding one redaction mark
rectangle on a page (page.add_redact_annot), or committing the marks of
a page (page.apply_redactions). -/
inductive Event where
  | locate (pattern : List Char) (pageIdx : ℕ)
  | mark (pattern : List Char) (pageIdx : ℕ) (rect : Rect)
  | commit (pattern : List Char) (pageIdx : ℕ)
deriving DecidableEq, Repr

/-- Whether an event mutates the document. -/
def Event.isMutation : Event → Bool
  | Event.locate _ _ => false
  | Event.mark _ _ _ => true
  | Event.commit _ _ => true

/-- The per-page instance lookup shared by _redact_pattern and
preview_redactions: regex instances when use_regex, text instances
(with the TEXT_DEHYPHENATE flag) otherwise. -/
def locatePageInstances (C : Collaborators) (page : PageC)
    (pattern : List Char)
    (case_sensitive use_regex whole_words_only : Bool) : List Rect :=
  if use_regex then
    (find_regex_instances C.compile page pattern case_sensitive
      whole_words_only).1
  else
    find_text_instances C page pattern case_sensitive whole_words_only
      C.textDehyphenate

/-- The page loop of PDFRedactor._redact_pattern, from page index j on:
locate the instances of the pattern on each page; when there are any,
add a redaction mark for each instance and apply the redactions of that
page before moving to the next page.  Returns the updated pages, the
pattern count and the event trace. -/
def redactPagesAux (C : Collaborators) (pattern : List Char)
    (case_sensitive use_regex whole_words_only : Bool) :
    ℕ → List PageC → List PageC × ℕ × List Event
  | _, [] => ([], 0, [])
  | j, page :: rest =>
      let page_instances :=
        locatePageInstances C page pattern case_sensitive use_regex
          whole_words_only
      let r := redactPagesAux C pattern case_sensitive use_regex
        whole_words_only (j + 1) rest
      if page_instances.isEmpty then
        (page :: r.1, r.2.1, Event.locate pattern j :: r.2.2)
      else
        (C.applyRed page page_instances :: r.1,
         page_instances.length + r.2.1,
         (Event.locate pattern j ::
           (page_instances.map (Event.mark pattern j) ++
             [Event.commit pattern j])) ++ r.2.2)

/-- PDFRedactor._redact_pattern: the page loop from page 0. -/
def redact_pattern (C : Collaborators) (doc : List PageC)
    (pattern : List Char)
    (case_sensitive use_regex whole_words_only : Bool) :
    List PageC × ℕ × List Event :=
  redactPagesAux C pattern case_sensitive use_regex whole_words_only 0 doc

/-- The pattern loop of PDFRedactor.find_and_redact_text: process the
patterns in order, each over all pages, accumulating the total count
and the event trace. -/
def redactAllPatterns (C : Collaborators)
    (case_sensitive use_regex whole_words_only : Bool) :
    List (List Char) → List PageC → List PageC × ℕ × List Event
  | [], doc => (doc, 0, [])
  | pattern :: rest, doc =>
      let r1 := redact_pattern C doc pattern case_sensitive use_regex
        whole_words_only
      let r2 := redactAllPatterns C case_sensitive use_regex
        whole_words_only rest r1.1
      (r2.1, r1.2.1 + r2.2.1, r1.2.2 ++ r2.2.2)

/-- Specification-side, following the wording of the temporal claim:
the events of one (pattern, page) cell of the Cartesian product — a
locate, then one mark per located rectangle, then a commit of the marks
of that page (no commit when nothing was located). -/
def cellEvents (C : Collaborators) (pattern : List Char)
    (case_sensitive use_regex whole_words_only : Bool)
    (j : ℕ) (page : PageC) : List Event :=
  let instances :=
    locatePageInstances C page pattern case_sensitive use_regex
      whole_words_only
  Event.locate pattern j ::
    (if instances.isEmpty then []
     else instances.map (Event.mark pattern j) ++ [Event.commit pattern j])

/-- Specification-side: the cells of one pattern over the pages in
order, starting at page index j. -/
def pagesTrace (C : Collaborators) (pattern : List Char)
    (case_sensitive use_regex whole_words_only : Bool) :
    ℕ → List PageC → List Event
  | _, [] => []
  | j, page :: rest =>
      cellEvents C pattern case_sensitive use_regex whole_words_only j
          page ++
        pagesTrace C pattern case_sensitive use_regex whole_words_only
          (j + 1) rest

/-- The effect of one pattern pass on one page. -/
def pageTransform (C : Collaborators) (pattern : List Char)
    (case_sensitive use_regex whole_words_only : Bool)
    (page : PageC) : PageC :=
  let instances :=
    locatePageInstances C page pattern case_sensitive use_regex
      whole_words_only
  if instances.isEmpty then page else C.applyRed page instances

/-- Specification-side: the full trace in pattern-major order over the
Cartesian product pattern times page — all pages of an earlier pattern
before any page of a later pattern, the document evolving between
patterns. -/
def patternMajorTrace (C : Collaborators)
    (case_sensitive use_regex whole_words_only : Bool) :
    List (List Char) → List PageC → List Event
  | [], _ => []
  | pattern :: rest, doc =>
      pagesTrace C pattern case_sensitive use_regex whole_words_only 0
          doc ++
        patternMajorTrace C case_sensitive use_regex whole_words_only
          rest
          (doc.map (pageTransform C pattern case_sensitive use_regex
            whole_words_only))

/-- The per-pattern entry of the preview dictionary. -/
structure PatternReport where
  count : ℕ
  pages : List ℕ
deriving DecidableEq, Repr

/-- The preview_redactions return value. -/
structure PreviewResults where
  total_instances : ℕ
  patterns : List (List Char × PatternReport)
  pages_affected : List ℕ
deriving DecidableEq, Repr

/-- Assignment into a Python dict preserving insertion order: replace
the entry of an existing key, else append. -/
def dictInsert (k : List Char) (v : PatternReport) :
    List (List Char × PatternReport) → List (List Char × PatternReport)
  | [] => [(k, v)]
  | (k2, v2) :: rest =>
      if k2 = k then (k, v) :: rest else (k2, v2) :: dictInsert k v rest

/-- State of the preview page loop: the (unmodified) document, the
running pattern count, the page sets of the pattern and of the whole
run, and the event trace. -/
structure PagesScanState where
  doc : List PageC
  count : ℕ
  ppages : Finset ℕ
  affected : Finset ℕ
  events : List Event

/-- State of the preview pattern loop. -/
structure PreviewState where
  doc : List PageC
  total : ℕ
  dict : List (List Char × PatternReport)
  affected : Finset ℕ
  events : List Event

/-- One page of the preview loop: locate the instances of the pattern
on page j and, when there are any, add their count and record the
1-based page number for the pattern and for the run. -/
def previewPageStep (C : Collaborators) (pattern : List Char)
    (case_sensitive use_regex whole_words_only : Bool)
    (st : PagesScanState) (j : ℕ) : PagesScanState :=
  let page := st.doc.getD j ⟨[]⟩
  let page_instances :=
    locatePageInstances C page pattern case_sensitive use_regex
      whole_words_only
  if page_instances.isEmpty then
    { st with events := st.events ++ [Event.locate pattern j] }
  else
    { doc := st.doc
      count := st.count + page_instances.length
      ppages := insert (j + 1) st.ppages
      affected := insert (j + 1) st.affected
      events := st.events ++ [Event.locate pattern j] }

/-- One pattern of the preview loop: scan every page, then store the
pattern entry (count and ascending page list) and add to the total. -/
def previewPatternStep (C : Collaborators)
    (case_sensitive use_regex whole_words_only : Bool)
    (st : PreviewState) (pattern : List Char) : PreviewState :=
  let inner := (List.range st.doc.length).foldl
    (previewPageStep C pattern case_sensitive use_regex whole_words_only)
    ⟨st.doc, 0, ∅, st.affected, st.events⟩
  { doc := inner.doc
    total := st.total + inner.count
    dict := dictInsert pattern
      ⟨inner.count, Finset.sort (· ≤ ·) inner.ppages⟩ st.dict
    affected := inner.affected
    events := inner.events }

/-- PDFRedactor.preview_redactions: for every pattern, for every page,
locate instances and accumulate counts and affected pages; no mutation
is performed.  Returns the document pages as left by the run, the
summary (with pages_affected sorted at the end, as in the source), and
the event trace. -/
def preview_redactions (C : Collaborators) (doc : List PageC)
    (patterns : List (List Char))
    (case_sensitive use_regex whole_words_only : Bool) :
    List PageC × PreviewResults × List Event :=
  let final := patterns.foldl
    (previewPatternStep C case_sensitive use_regex whole_words_only)
    ⟨doc, 0, [], ∅, []⟩
  (final.doc,
   ⟨final.total, final.dict, Finset.sort (· ≤ ·) final.affected⟩,
   final.events)

/-- A rectangle lying within the bounding box of a span, with the full
vertical extent of the span. -/
def rectInSpan (sp : Span) (r : Rect) : Prop :=
  sp.x0 ≤ r.x0 ∧ r.x0 ≤ r.x1 ∧ r.x1 ≤ sp.x1 ∧ r.y0 = sp.y0 ∧ r.y1 = sp.y1

/-- The HELLO span of the specification examples. -/
def helloSpan : Span := ⟨['H', 'E', 'L', 'L', 'O'], 0, 0, 50, 10⟩

/-- A concrete single-span page used by the witnesses. -/
def spanAB : Span := ⟨['a', 'b'], 0, 0, 2, 1⟩

/-- A concrete page holding spanAB. -/
def pgAB : PageC := ⟨[⟨some [⟨[spanAB]⟩]⟩]⟩

/-- A regex compiler that rejects every pattern, standing in for
re.compile on a malformed pattern such as a lone parenthesis. -/
def failCompile : List Char → Bool → Except String RegexEngine :=
  fun _ _ => Except.error "unbalanced parenthesis"

/-- Concrete collaborators used by the witnesses. -/
def trivialCollaborators : Collaborators :=
  ⟨fun _ _ _ => [], failCompile, fun page _ => page, 0⟩

theorem find?_range'_some {f : ℕ → Bool} :
    ∀ {n s p : ℕ}, (List.range' s n).find? f = some p →
      s ≤ p ∧ p < s + n ∧ f p = true ∧
        ∀ k, s ≤ k → k < p → f k = false := by
  intro n
  induction n with
  | zero => intro s p h; simp [List.range'] at h
  | succ n ih =>
      intro s p h
      rw [List.range'_succ] at h
      by_cases hf : f s = true
      · rw [List.find?_cons_of_pos _ hf] at h
        injection h with h
        subst h
        exact ⟨le_refl s, by omega, hf, fun k hk1 hk2 => absurd hk1 (by omega)⟩
      · rw [List.find?_cons_of_neg _ hf] at h
        obtain ⟨h1, h2, h3, h4⟩ := ih h
        refine ⟨by omega, by omega, h3, fun k hk1 hk2 => ?_⟩
        rcases Nat.eq_or_lt_of_le hk1 with hk | hk
        · rw [hk] at hf; exact Bool.eq_false_iff.mpr hf
        · exact h4 k hk hk2

theorem find?_range'_none {f : ℕ → Bool} {n s : ℕ}
    (h : (List.range' s n).find? f = none) :
    ∀ k, s ≤ k → k < s + n → f k = false := by
  intro k hk1 hk2
  have hmem : k ∈ List.range' s n := List.mem_range'_1.mpr ⟨hk1, hk2⟩
  have := List.find?_eq_none.mp h k hmem
  exact Bool.eq_false_iff.mpr this

theorem strFind_some {t pat : List Char} {s p : ℕ}
    (h : strFind t pat s = some p) :
    s ≤ p ∧ p ≤ t.length ∧ matchesAt t pat p = true ∧
      ∀ k, s ≤ k → k < p → matchesAt t pat k = false := by
  obtain ⟨h1, h2, h3, h4⟩ := find?_range'_some h
  exact ⟨h1, by omega, h3, h4⟩

/-- The scanning loop of _case_insensitive_search, with enough fuel,
returns exactly the increasing enumeration of the occurrence positions
at or after the cursor. -/
theorem scanLoop_eq (t pat : List Char) :
    ∀ (fuel s : ℕ), t.length + 1 - s ≤ fuel →
      scanLoop t pat fuel s =
        (List.range' s (t.length + 1 - s)).filter (matchesAt t pat) := by
  intro fuel
  induction fuel with
  | zero =>
      intro s hs
      have h0 : t.length + 1 - s = 0 := by omega
      rw [h0]
      simp [scanLoop, List.range']
  | succ fuel ih =>
      intro s hs
      show (match strFind t pat s with
            | none => []
            | some pos => pos :: scanLoop t pat fuel (pos + 1)) = _
      cases hfind : strFind t pat s with
      | none =>
          have hnone := find?_range'_none (f := matchesAt t pat) hfind
          rw [eq_comm, List.filter_eq_nil_iff]
          intro a ha
          rcases List.mem_range'_1.mp ha with ⟨ha1, ha2⟩
          simp [hnone a ha1 ha2]
      | some pos =>
          show pos :: scanLoop t pat fuel (pos + 1) =
            (List.range' s (t.length + 1 - s)).filter (matchesAt t pat)
          obtain ⟨hsp, hplen, hmatch, hmin⟩ := strFind_some hfind
          have hsplit : List.range' s (t.length + 1 - s) =
              List.range' s (pos - s) ++ List.range' pos (t.length + 1 - pos) := by
            have := List.range'_append_1 s (pos - s) (t.length + 1 - pos)
            rw [show s + (pos - s) = pos by omega] at this
            rw [show t.length + 1 - pos + (pos - s) = t.length + 1 - s by omega] at this
            exact this.symm
          rw [hsplit, List.filter_append]
          have hleft : (List.range' s (pos - s)).filter (matchesAt t pat) = [] := by
            rw [List.filter_eq_nil_iff]
            intro a ha
            rcases List.mem_range'_1.mp ha with ⟨ha1, ha2⟩
            simp [hmin a ha1 (by omega)]
          rw [hleft, List.nil_append]
          rw [show t.length + 1 - pos = (t.length - pos) + 1 by omega,
            List.range'_succ, List.filter_cons_of_pos hmatch]
          rw [ih (pos + 1) (by omega)]
          rw [show t.length + 1 - (pos + 1) = t.length - pos by omega]

/-- scanPositions from cursor 0 enumerates every occurrence position in
increasing order: this is the substring-scan semantics in which
overlapping occurrences are each counted individually. -/
theorem scanPositions_eq_allOccurrences (t pat : List Char) :
    scanPositions t pat 0 = allOccurrences t pat := by
  unfold scanPositions allOccurrences
  rw [scanLoop_eq t pat (t.length + 1 - 0) 0 (le_refl _)]
  rw [List.range_eq_range']
  norm_num

theorem matchesAt_bound {t pat : List Char} {p : ℕ}
    (h : matchesAt t pat p = true) : p + pat.length ≤ t.length := by
  unfold matchesAt at h
  rw [Bool.and_eq_true, decide_eq_true_eq, decide_eq_true_eq] at h
  obtain ⟨hp, htake⟩ := h
  have hlen : ((t.drop p).take pat.length).length = pat.length := by
    rw [htake]
  rw [List.length_take, List.length_drop] at hlen
  omega

/-- Flattening the nested block/line/span loops: a flatMap over all
spans of the page in reading order. -/
theorem pageSpans_flatMap {γ : Type} (page : PageC) (g : Span → List γ) :
    page.blocks.flatMap (fun block =>
      (linesOf block).flatMap (fun line => line.spans.flatMap g)) =
    (pageSpans page).flatMap g := by
  unfold pageSpans
  rw [List.flatMap_assoc]
  congr 1
  funext b
  rw [List.flatMap_assoc]

/-- The case-insensitive literal search equals, span by span in reading
order, the increasing enumeration of every occurrence of the lowered
pattern in the lowered span text, each projected through occRect. -/
theorem case_insensitive_search_eq_flatMap
    (page : PageC) (pattern : List Char) (search_flags : Int) :
    case_insensitive_search page pattern search_flags =
      (pageSpans page).flatMap (fun span =>
        (allOccurrences (lowerStr span.text) (lowerStr pattern)).map
          (fun pos => occRect span pos (pos + pattern.length))) := by
  show (page.blocks.flatMap fun block =>
      (linesOf block).flatMap fun line =>
        line.spans.flatMap fun span =>
          (scanPositions (lowerStr span.text) (lowerStr pattern) 0).map
            (fun pos => occRect span pos (pos + pattern.length))) = _
  simp only [scanPositions_eq_allOccurrences]
  rw [← pageSpans_flatMap]

/-- C1: in literal mode with case_sensitive = false, locating a pattern
lower-cases both the span text and the pattern, enumerates for every
span all occurrences scanning left to right with the cursor advancing
one character past each match start (so overlapping occurrences of a
repeated character sequence are each counted individually), and returns
them ordered by span in reading order and then by start offset: the
result equals the flatMap, over the spans in reading order, of the
increasing enumeration of all occurrence positions. -/
theorem c1_case_insensitive_search_enumerates_all_occurrences :
    ∀ (page : PageC) (pattern : List Char) (search_flags : Int),
      case_insensitive_search page pattern search_flags =
        (pageSpans page).flatMap (fun span =>
          (allOccurrences (lowerStr span.text) (lowerStr pattern)).map
            (fun pos => occRect span pos (pos + pattern.length))) := by
  intro page pattern search_flags
  exact case_insensitive_search_eq_flatMap page pattern search_flags

theorem filter_whole_words_eq_id (page : PageC) (pattern : List Char) :
    ∀ (instances : List Rect),
      filter_whole_words page instances pattern = instances := by
  have haux : ∀ (l acc : List Rect),
      l.foldl (fun filtered_instances inst => filtered_instances ++ [inst]) acc =
        acc ++ l := by
    intro l
    induction l with
    | nil => intro acc; simp
    | cons x xs ih => intro acc; simp [List.foldl_cons, ih]
  intro instances
  unfold filter_whole_words
  rw [haux]
  simp

/-- C2: in literal mode, requesting whole_word changes nothing: the
whole-word filter is the identity on its input list, so the instances
found with whole_words_only = true equal those found with
whole_words_only = false. -/
theorem c2_whole_words_filter_is_identity :
    ∀ (C : Collaborators) (page : PageC) (pattern : List Char)
      (case_sensitive : Bool) (search_flags : Int),
      find_text_instances C page pattern case_sensitive true search_flags =
        find_text_instances C page pattern case_sensitive false search_flags ∧
      ∀ (instances : List Rect),
        filter_whole_words page instances pattern = instances := by
  intro C page pattern case_sensitive search_flags
  refine ⟨?_, filter_whole_words_eq_id page pattern⟩
  unfold find_text_instances
  simp [filter_whole_words_eq_id]

/-- C3: for a span with non-empty text and offsets start < end within
the text, the projected rectangle uses char_width = (x1 - x0) / len,
left edge x0 + start * char_width, right edge x0 + end * char_width,
and retains the full vertical extent of the span. -/
theorem c3_geometry_projection (sp : Span) (startOff endOff : ℕ)
    (h1 : sp.text ≠ []) (h2 : startOff < endOff)
    (h3 : endOff ≤ sp.text.length) :
    occRect sp startOff endOff =
      ⟨sp.x0 + (startOff : ℚ) * ((sp.x1 - sp.x0) / sp.text.length), sp.y0,
       sp.x0 + (endOff : ℚ) * ((sp.x1 - sp.x0) / sp.text.length), sp.y1⟩ := by
  unfold occRect
  have hne : sp.text.isEmpty = false := by
    cases htext : sp.text with
    | nil => exact absurd htext h1
    | cons c cs => rfl
  rw [hne]
  simp

theorem c3_geometry_projection_witness :
    occRect helloSpan 0 5 = ⟨0, 0, 50, 10⟩ ∧
    occRect helloSpan 0 2 = ⟨0, 0, 20, 10⟩ := by
  constructor
  · refine (c3_geometry_projection helloSpan 0 5 (by decide) (by decide)
      (by decide)).trans ?_
    show Rect.mk (0 + (0 : ℚ) * ((50 - 0) / (5 : ℕ))) 0
        (0 + (5 : ℚ) * ((50 - 0) / (5 : ℕ))) 10 = _
    norm_num
  · refine (c3_geometry_projection helloSpan 0 2 (by decide) (by decide)
      (by decide)).trans ?_
    show Rect.mk (0 + (0 : ℚ) * ((50 - 0) / (5 : ℕ))) 0
        (0 + (2 : ℚ) * ((50 - 0) / (5 : ℕ))) 10 = _
    norm_num

theorem fileExists_removeFile (fs : FS) (name : String) :
    fileExists (removeFile fs name) name = false := by
  simp only [fileExists, removeFile, List.contains_eq_any_beq]
  rw [Bool.eq_false_iff]
  intro h
  rcases List.any_eq_true.mp h with ⟨x, hx, hbeq⟩
  rcases List.mem_filter.mp hx with ⟨-, hne⟩
  rw [beq_iff_eq] at hbeq
  simp [hbeq] at hne

theorem tempPdfFile_removes_temp {α : Type} (fs : FS) (tempName : String)
    (body : FS → String → FS × Except PyError α) :
    fileExists (tempPdfFile fs tempName body).1 tempName = false := by
  unfold tempPdfFile
  by_cases h : fileExists (body (createFile fs tempName) tempName).1 tempName = true
  · simp [h, fileExists_removeFile]
  · simp only [Bool.not_eq_true] at h
    simp [h]

/-- C5: the optimizer invocation succeeds exactly on exit statuses 0, 2
and 3; any other status (such as 4) raises a CalledProcessError carrying
the status, and a missing binary raises a distinct fault kind, a
RedactionError carrying the installation remediation hint. -/
theorem c5_qpdf_exit_status_mapping :
    ∀ rc : Int,
      ((optimize_with_qpdf (QpdfOutcome.completed rc) = Except.ok ()) ↔
        (rc = 0 ∨ rc = 2 ∨ rc = 3)) ∧
      optimize_with_qpdf (QpdfOutcome.completed 4) =
        Except.error (PyError.calledProcessError 4) ∧
      optimize_with_qpdf QpdfOutcome.binaryMissing =
        Except.error (PyError.redactionError qpdfNotFoundMessage) ∧
      (∀ rc2 : Int,
        optimize_with_qpdf QpdfOutcome.binaryMissing ≠
          Except.error (PyError.calledProcessError rc2)) := by
  intro rc
  refine ⟨?_, rfl, rfl, fun rc2 => by simp [optimize_with_qpdf]⟩
  constructor
  · intro h
    by_contra hne
    push_neg at hne
    have hmem : rc ∉ QPDF_SUCCESS_CODES := by
      simp [QPDF_SUCCESS_CODES, hne.1, hne.2.1, hne.2.2]
    simp [optimize_with_qpdf, hmem] at h
  · intro h
    have hmem : rc ∈ QPDF_SUCCESS_CODES := by
      rcases h with h | h | h <;> simp [QPDF_SUCCESS_CODES, h]
    simp [optimize_with_qpdf, hmem]

/-- C7: the intermediate uncompressed temporary file is removed on every
exit path of the save-and-optimize step: whatever the save outcome and
the optimizer outcome (success, bad exit status, missing binary, or an
exception during save), the temporary file does not exist afterwards;
and the scoped temporary-file acquisition guarantees this for an
arbitrary body. -/
theorem c7_temp_file_removed_on_every_exit_path :
    ∀ (fs : FS) (tempName outputFile : String)
      (saveOutcome : Except PyError Unit) (qpdfOutcome : QpdfOutcome),
      fileExists
        (save_and_optimize fs tempName outputFile saveOutcome qpdfOutcome).1
        tempName = false ∧
      ∀ (body : FS → String → FS × Except PyError Unit),
        fileExists (tempPdfFile fs tempName body).1 tempName = false := by
  intro fs tempName outputFile saveOutcome qpdfOutcome
  exact ⟨tempPdfFile_removes_temp _ _ _, fun body => tempPdfFile_removes_temp _ _ _⟩

theorem occRect_in_span (sp : Span) (s e : ℕ) (hx : sp.x0 ≤ sp.x1)
    (hse : s ≤ e) (hlen : e ≤ sp.text.length) :
    rectInSpan sp (occRect sp s e) := by
  have hx0 : (occRect sp s e).x0 = sp.x0 + (s : ℚ) *
      (if sp.text.isEmpty then 0 else (sp.x1 - sp.x0) / sp.text.length) := rfl
  have hx1 : (occRect sp s e).x1 = sp.x0 + (e : ℚ) *
      (if sp.text.isEmpty then 0 else (sp.x1 - sp.x0) / sp.text.length) := rfl
  have hcw : (0 : ℚ) ≤
      (if sp.text.isEmpty then 0 else (sp.x1 - sp.x0) / sp.text.length) := by
    split
    · exact le_refl 0
    · exact div_nonneg (by linarith) (Nat.cast_nonneg _)
  have hbound : (e : ℚ) *
      (if sp.text.isEmpty then 0 else (sp.x1 - sp.x0) / sp.text.length) ≤
      sp.x1 - sp.x0 := by
    split
    · simpa using hx
    · rename_i hne
      have hlen0 : 0 < sp.text.length := by
        cases ht : sp.text with
        | nil => rw [ht] at hne; simp at hne
        | cons c cs => simp [ht]
      have hcast : (0 : ℚ) < (sp.text.length : ℚ) := by exact_mod_cast hlen0
      have hcwpos : (0 : ℚ) ≤ (sp.x1 - sp.x0) / sp.text.length :=
        div_nonneg (by linarith) (le_of_lt hcast)
      have h1 : (e : ℚ) * ((sp.x1 - sp.x0) / sp.text.length) ≤
          (sp.text.length : ℚ) * ((sp.x1 - sp.x0) / sp.text.length) := by
        refine mul_le_mul_of_nonneg_right ?_ hcwpos
        exact_mod_cast hlen
      have h2 : (sp.text.length : ℚ) * ((sp.x1 - sp.x0) / sp.text.length) =
          sp.x1 - sp.x0 := by
        rw [mul_comm]
        exact div_mul_cancel₀ _ (ne_of_gt hcast)
      linarith
  unfold rectInSpan
  refine ⟨?_, ?_, ?_, rfl, rfl⟩
  · rw [hx0]
    exact le_add_of_nonneg_right (mul_nonneg (Nat.cast_nonneg s) hcw)
  · rw [hx0, hx1]
    have hse2 : (s : ℚ) ≤ (e : ℚ) := by exact_mod_cast hse
    exact add_le_add_left (mul_le_mul_of_nonneg_right hse2 hcw) sp.x0
  · rw [hx1]
    linarith

/-- C10: with length-preserving lower-casing (the character-wise model
used throughout), every instance rectangle produced by the two
span-scanning search paths lies within the bounding box of one of the
spans of the page and retains its full vertical extent, provided every
span satisfies the bbox invariant x0 ≤ x1. -/
theorem c10_instances_lie_within_span_bbox (page : PageC)
    (pattern : List Char)
    (hvalid : ∀ sp ∈ pageSpans page, sp.x0 ≤ sp.x1) :
    (∀ (search_flags : Int) (r : Rect),
        r ∈ case_insensitive_search page pattern search_flags →
        ∃ sp ∈ pageSpans page, rectInSpan sp r) ∧
    (∀ (compile : List Char → Bool → Except String RegexEngine)
        (case_sensitive whole_words_only : Bool) (r : Rect),
        r ∈ (find_regex_instances compile page pattern case_sensitive
          whole_words_only).1 →
        ∃ sp ∈ pageSpans page, rectInSpan sp r) := by
  constructor
  · intro search_flags r hr
    rw [case_insensitive_search_eq_flatMap] at hr
    rcases List.mem_flatMap.mp hr with ⟨sp, hsp, hrm⟩
    rcases List.mem_map.mp hrm with ⟨pos, hpos, rfl⟩
    have hmatch : matchesAt (lowerStr sp.text) (lowerStr pattern) pos = true :=
      List.of_mem_filter hpos
    have hb := matchesAt_bound hmatch
    simp only [lowerStr, List.length_map] at hb
    exact ⟨sp, hsp, occRect_in_span sp pos (pos + pattern.length)
      (hvalid sp hsp) (Nat.le_add_right _ _) hb⟩
  · intro compile case_sensitive whole_words_only r hr
    simp only [find_regex_instances] at hr
    cases hcomp : compile
        (if whole_words_only then
          wordBoundaryAnchor ++ pattern ++ wordBoundaryAnchor
         else pattern) (!case_sensitive) with
    | error e => rw [hcomp] at hr; simp at hr
    | ok rgx =>
        rw [hcomp] at hr
        simp only at hr
        rw [pageSpans_flatMap] at hr
        rcases List.mem_flatMap.mp hr with ⟨sp, hsp, hrm⟩
        rcases List.mem_map.mp hrm with ⟨m, hm, rfl⟩
        obtain ⟨hm1, hm2⟩ := rgx.finditer_valid sp.text m hm
        exact ⟨sp, hsp, occRect_in_span sp m.1 m.2 (hvalid sp hsp) hm1 hm2⟩

theorem c10_instances_lie_within_span_bbox_witness :
    ∃ sp ∈ pageSpans pgAB, rectInSpan sp ⟨0, 0, 1, 1⟩ := by
  have hvalid : ∀ sp ∈ pageSpans pgAB, sp.x0 ≤ sp.x1 := by
    intro sp hsp
    rw [show pageSpans pgAB = [spanAB] from rfl] at hsp
    rcases List.mem_singleton.mp hsp with rfl
    show (0 : ℚ) ≤ 2
    norm_num
  have hsearch : case_insensitive_search pgAB ['a'] 0 = [⟨0, 0, 1, 1⟩] := by
    rw [case_insensitive_search_eq_flatMap]
    rw [show pageSpans pgAB = [spanAB] from rfl]
    simp only [List.flatMap_cons, List.flatMap_nil, List.append_nil]
    rw [show allOccurrences (lowerStr spanAB.text) (lowerStr ['a']) = [0]
      from by decide]
    simp only [List.map_cons, List.map_nil]
    show [occRect spanAB 0 (0 + 1)] = _
    norm_num [occRect, spanAB]
  exact (c10_instances_lie_within_span_bbox pgAB ['a'] hvalid).1 0
    ⟨0, 0, 1, 1⟩ (by rw [hsearch]; exact List.mem_singleton.mpr rfl)

/-- The page loop of _redact_pattern computed in closed form: the new
document is the per-page transform, the count is the sum of the per-page
instance counts, and the event trace is the concatenation of the
per-page cells in page order. -/
theorem redactPagesAux_spec (C : Collaborators) (pattern : List Char)
    (case_sensitive use_regex whole_words_only : Bool) :
    ∀ (j : ℕ) (doc : List PageC),
      redactPagesAux C pattern case_sensitive use_regex whole_words_only
          j doc =
        (doc.map (pageTransform C pattern case_sensitive use_regex
            whole_words_only),
         (doc.map (fun page => (locatePageInstances C page pattern
            case_sensitive use_regex whole_words_only).length)).sum,
         pagesTrace C pattern case_sensitive use_regex whole_words_only
            j doc) := by
  intro j doc
  induction doc generalizing j with
  | nil => rfl
  | cons page rest ih =>
      show (let page_instances := locatePageInstances C page pattern
              case_sensitive use_regex whole_words_only
            let r := redactPagesAux C pattern case_sensitive use_regex
              whole_words_only (j + 1) rest
            if page_instances.isEmpty then
              (page :: r.1, r.2.1, Event.locate pattern j :: r.2.2)
            else
              (C.applyRed page page_instances :: r.1,
               page_instances.length + r.2.1,
               (Event.locate pattern j ::
                 (page_instances.map (Event.mark pattern j) ++
                   [Event.commit pattern j])) ++ r.2.2)) = _
      rw [ih (j + 1)]
      by_cases hempty : (locatePageInstances C page pattern case_sensitive
          use_regex whole_words_only).isEmpty = true
      · have hnil : locatePageInstances C page pattern case_sensitive
            use_regex whole_words_only = [] := List.isEmpty_iff.mp hempty
        simp only [hempty, if_true, List.map_cons, List.sum_cons]
        refine Prod.ext ?_ (Prod.ext ?_ ?_) <;>
          simp [pageTransform, cellEvents, pagesTrace, hnil]
      · have hff : (locatePageInstances C page pattern case_sensitive
            use_regex whole_words_only).isEmpty = false :=
          Bool.eq_false_iff.mpr hempty
        simp only [hff, Bool.false_eq_true, if_false, List.map_cons,
          List.sum_cons]
        refine Prod.ext ?_ (Prod.ext ?_ ?_) <;>
          simp [pageTransform, cellEvents, pagesTrace, hff]

/-- C6: in apply mode, the event trace of the pattern loop is exactly
the pattern-major traversal of the Cartesian product pattern times
page: for every pattern in input order, every page is visited in order,
each located rectangle is marked and the marks of the page are
committed before the next page, and all pages of an earlier pattern are
fully processed before any page of a later pattern is searched. -/
theorem c6_apply_is_pattern_major :
    ∀ (C : Collaborators)
      (case_sensitive use_regex whole_words_only : Bool)
      (patterns : List (List Char)) (doc : List PageC),
      (redactAllPatterns C case_sensitive use_regex whole_words_only
          patterns doc).2.2 =
        patternMajorTrace C case_sensitive use_regex whole_words_only
          patterns doc := by
  intro C case_sensitive use_regex whole_words_only patterns
  induction patterns with
  | nil => intro doc; rfl
  | cons pattern rest ih =>
      intro doc
      show ((redact_pattern C doc pattern case_sensitive use_regex
          whole_words_only).2.2 ++
        (redactAllPatterns C case_sensitive use_regex whole_words_only
          rest (redact_pattern C doc pattern case_sensitive use_regex
            whole_words_only).1).2.2) = _
      unfold redact_pattern
      rw [redactPagesAux_spec]
      show pagesTrace C pattern case_sensitive use_regex whole_words_only
          0 doc ++ _ = _
      unfold patternMajorTrace
      rw [ih]

/-- Splitting the pattern loop at an append: the second part runs on
the document produced by the first, and the counts add. -/
theorem redactAllPatterns_append (C : Collaborators)
    (case_sensitive use_regex whole_words_only : Bool) :
    ∀ (a b : List (List Char)) (doc : List PageC),
      (redactAllPatterns C case_sensitive use_regex whole_words_only
          (a ++ b) doc).1 =
        (redactAllPatterns C case_sensitive use_regex whole_words_only b
          (redactAllPatterns C case_sensitive use_regex whole_words_only
            a doc).1).1 ∧
      (redactAllPatterns C case_sensitive use_regex whole_words_only
          (a ++ b) doc).2.1 =
        (redactAllPatterns C case_sensitive use_regex whole_words_only
            a doc).2.1 +
          (redactAllPatterns C case_sensitive use_regex whole_words_only
            b (redactAllPatterns C case_sensitive use_regex
              whole_words_only a doc).1).2.1 := by
  intro a
  induction a with
  | nil => intro b doc; exact ⟨rfl, (Nat.zero_add _).symm⟩
  | cons p a ih =>
      intro b doc
      rcases ih b (redact_pattern C doc p case_sensitive use_regex
        whole_words_only).1 with ⟨ih1, ih2⟩
      constructor
      · show (redactAllPatterns C case_sensitive use_regex
            whole_words_only (a ++ b) (redact_pattern C doc p
              case_sensitive use_regex whole_words_only).1).1 = _
        exact ih1
      · show (redact_pattern C doc p case_sensitive use_regex
            whole_words_only).2.1 +
          (redactAllPatterns C case_sensitive use_regex whole_words_only
            (a ++ b) (redact_pattern C doc p case_sensitive use_regex
              whole_words_only).1).2.1 =
          ((redact_pattern C doc p case_sensitive use_regex
            whole_words_only).2.1 +
            (redactAllPatterns C case_sensitive use_regex whole_words_only
              a (redact_pattern C doc p case_sensitive use_regex
                whole_words_only).1).2.1) +
          (redactAllPatterns C case_sensitive use_regex whole_words_only
            b (redactAllPatterns C case_sensitive use_regex
              whole_words_only a (redact_pattern C doc p case_sensitive
                use_regex whole_words_only).1).1).2.1
        rw [ih2, Nat.add_assoc]

/-- A pattern whose (possibly word-boundary wrapped) text fails to
compile locates no instances in regex mode on any page. -/
theorem locatePageInstances_of_compile_error (C : Collaborators)
    (pattern : List Char) (case_sensitive whole_words_only : Bool)
    (e : String)
    (hfail : C.compile
        (if whole_words_only then
          wordBoundaryAnchor ++ pattern ++ wordBoundaryAnchor
         else pattern) (!case_sensitive) = Except.error e) :
    ∀ page : PageC,
      locatePageInstances C page pattern case_sensitive true
        whole_words_only = [] := by
  intro page
  simp only [locatePageInstances, if_true, find_regex_instances]
  rw [hfail]

/-- C4: a pattern that fails to compile in regex mode is a caught
fault: the locator yields zero occurrences on every page together with
a diagnostic, and the run continues — inserting such a pattern anywhere
into a regex-mode run leaves both the final document and the total
count unchanged, with the remaining patterns still processed. -/
theorem c4_invalid_regex_is_caught_and_run_continues (C : Collaborators)
    (pattern : List Char) (case_sensitive whole_words_only : Bool)
    (e : String)
    (hfail : C.compile
        (if whole_words_only then
          wordBoundaryAnchor ++ pattern ++ wordBoundaryAnchor
         else pattern) (!case_sensitive) = Except.error e) :
    (∀ page : PageC,
      find_regex_instances C.compile page pattern case_sensitive
          whole_words_only =
        ([], [mkRegexDiag
          (if whole_words_only then
            wordBoundaryAnchor ++ pattern ++ wordBoundaryAnchor
           else pattern) e])) ∧
    (∀ (doc : List PageC) (ps1 ps2 : List (List Char)),
      (redactAllPatterns C case_sensitive true whole_words_only
          (ps1 ++ pattern :: ps2) doc).1 =
        (redactAllPatterns C case_sensitive true whole_words_only
          (ps1 ++ ps2) doc).1 ∧
      (redactAllPatterns C case_sensitive true whole_words_only
          (ps1 ++ pattern :: ps2) doc).2.1 =
        (redactAllPatterns C case_sensitive true whole_words_only
          (ps1 ++ ps2) doc).2.1) := by
  have hloc := locatePageInstances_of_compile_error C pattern
    case_sensitive whole_words_only e hfail
  constructor
  · intro page
    simp only [find_regex_instances]
    rw [hfail]
  · intro doc ps1 ps2
    have hredact : ∀ d : List PageC,
        redact_pattern C d pattern case_sensitive true whole_words_only =
          (d, 0, pagesTrace C pattern case_sensitive true
            whole_words_only 0 d) := by
      intro d
      unfold redact_pattern
      rw [redactPagesAux_spec]
      refine Prod.ext ?_ (Prod.ext ?_ rfl)
      · show d.map (pageTransform C pattern case_sensitive true
          whole_words_only) = d
        have : ∀ page ∈ d, pageTransform C pattern case_sensitive true
            whole_words_only page = page := by
          intro page hmem
          simp [pageTransform, hloc page]
        rw [List.map_congr_left this]
        simp
      · show (d.map (fun page => (locatePageInstances C page pattern
          case_sensitive true whole_words_only).length)).sum = 0
        have : ∀ page ∈ d, (locatePageInstances C page pattern
            case_sensitive true whole_words_only).length = 0 := by
          intro page hmem
          rw [hloc page]
          rfl
        rw [List.map_congr_left this]
        simp
    rcases redactAllPatterns_append C case_sensitive true
      whole_words_only ps1 (pattern :: ps2) doc with ⟨hfull1, hfull2⟩
    rcases redactAllPatterns_append C case_sensitive true
      whole_words_only ps1 ps2 doc with ⟨hwo1, hwo2⟩
    have hcons1 : (redactAllPatterns C case_sensitive true
        whole_words_only (pattern :: ps2)
        (redactAllPatterns C case_sensitive true whole_words_only ps1
          doc).1).1 =
      (redactAllPatterns C case_sensitive true whole_words_only ps2
        (redactAllPatterns C case_sensitive true whole_words_only ps1
          doc).1).1 := by
      show (redactAllPatterns C case_sensitive true whole_words_only ps2
        (redact_pattern C _ pattern case_sensitive true
          whole_words_only).1).1 = _
      rw [hredact]
    have hcons2 : (redactAllPatterns C case_sensitive true
        whole_words_only (pattern :: ps2)
        (redactAllPatterns C case_sensitive true whole_words_only ps1
          doc).1).2.1 =
      (redactAllPatterns C case_sensitive true whole_words_only ps2
        (redactAllPatterns C case_sensitive true whole_words_only ps1
          doc).1).2.1 := by
      show (redact_pattern C _ pattern case_sensitive true
          whole_words_only).2.1 +
        (redactAllPatterns C case_sensitive true whole_words_only ps2
          (redact_pattern C _ pattern case_sensitive true
            whole_words_only).1).2.1 = _
      rw [hredact]
      simp
    exact ⟨hfull1.trans (hcons1.trans hwo1.symm),
      hfull2.trans ((congrArg _ hcons2).trans hwo2.symm)⟩

theorem c4_invalid_regex_witness :
    find_regex_instances trivialCollaborators.compile pgAB ['(']
        true false =
      ([], [mkRegexDiag ['('] "unbalanced parenthesis"]) ∧
    (redactAllPatterns trivialCollaborators true true false
        [['a'], ['(']] [pgAB]).2.1 =
      (redactAllPatterns trivialCollaborators true true false
        [['a']] [pgAB]).2.1 := by
  have h := c4_invalid_regex_is_caught_and_run_continues
    trivialCollaborators ['('] true false "unbalanced parenthesis" rfl
  exact ⟨h.1 pgAB, (h.2 [pgAB] [['a']] []).2⟩

theorem foldl_preserve {α β : Type _} {P : α → Prop} {f : α → β → α}
    (hf : ∀ st x, P st → P (f st x)) :
    ∀ (l : List β) (st : α), P st → P (l.foldl f st) := by
  intro l
  induction l with
  | nil => intro st h; exact h
  | cons x xs ih => intro st h; exact ih _ (hf st x h)

theorem previewPageStep_preserves (C : Collaborators) (pattern : List Char)
    (case_sensitive use_regex whole_words_only : Bool)
    (st : PagesScanState) (j : ℕ) :
    (previewPageStep C pattern case_sensitive use_regex whole_words_only
        st j).doc = st.doc ∧
    (previewPageStep C pattern case_sensitive use_regex whole_words_only
        st j).events.all (fun ev => !ev.isMutation) =
      st.events.all (fun ev => !ev.isMutation) ∧
    ((∀ x ∈ st.ppages, 1 ≤ x) →
      ∀ x ∈ (previewPageStep C pattern case_sensitive use_regex
        whole_words_only st j).ppages, 1 ≤ x) := by
  simp only [previewPageStep]
  split
  · exact ⟨rfl, by simp [List.all_append, Event.isMutation],
      fun h => h⟩
  · refine ⟨rfl, by simp [List.all_append, Event.isMutation], ?_⟩
    intro h x hx
    rcases Finset.mem_insert.mp hx with hx | hx
    · omega
    · exact h x hx

theorem foldl_pageStep_spec (C : Collaborators) (pattern : List Char)
    (case_sensitive use_regex whole_words_only : Bool) :
    ∀ (l : List ℕ) (st : PagesScanState),
      ((l.foldl (previewPageStep C pattern case_sensitive use_regex
          whole_words_only) st).doc = st.doc) ∧
      ((l.foldl (previewPageStep C pattern case_sensitive use_regex
          whole_words_only) st).events.all (fun ev => !ev.isMutation) =
        st.events.all (fun ev => !ev.isMutation)) ∧
      ((∀ x ∈ st.ppages, 1 ≤ x) →
        ∀ x ∈ (l.foldl (previewPageStep C pattern case_sensitive
          use_regex whole_words_only) st).ppages, 1 ≤ x) := by
  intro l
  induction l with
  | nil => intro st; exact ⟨rfl, rfl, fun h => h⟩
  | cons x xs ih =>
      intro st
      rcases previewPageStep_preserves C pattern case_sensitive
        use_regex whole_words_only st x with ⟨h1, h2, h3⟩
      rcases ih (previewPageStep C pattern case_sensitive use_regex
        whole_words_only st x) with ⟨i1, i2, i3⟩
      exact ⟨i1.trans h1, i2.trans h2, fun h => i3 (h3 h)⟩

theorem dictInsert_forall {Q : List Char × PatternReport → Prop}
    (k : List Char) (v : PatternReport) :
    ∀ (d : List (List Char × PatternReport)),
      List.Forall Q d → Q (k, v) → List.Forall Q (dictInsert k v d) := by
  intro d
  induction d with
  | nil => intro _ hq; exact (List.forall_cons _ _ _).mpr ⟨hq, trivial⟩
  | cons kv rest ih =>
      rcases kv with ⟨k2, v2⟩
      intro hall hq
      rcases (List.forall_cons _ _ _).mp hall with ⟨h1, h2⟩
      show List.Forall Q
        (if k2 = k then (k, v) :: rest else (k2, v2) :: dictInsert k v rest)
      split
      · exact (List.forall_cons _ _ _).mpr ⟨hq, h2⟩
      · exact (List.forall_cons _ _ _).mpr ⟨h1, ih h2 hq⟩

theorem previewPatternStep_preserves (C : Collaborators)
    (case_sensitive use_regex whole_words_only : Bool)
    (st : PreviewState) (pattern : List Char) :
    (previewPatternStep C case_sensitive use_regex whole_words_only st
        pattern).doc = st.doc ∧
    (previewPatternStep C case_sensitive use_regex whole_words_only st
        pattern).events.all (fun ev => !ev.isMutation) =
      st.events.all (fun ev => !ev.isMutation) ∧
    (List.Forall (fun kv => kv.2.pages.Sorted (· < ·) ∧
        List.Forall (fun x => 1 ≤ x) kv.2.pages) st.dict →
      List.Forall (fun kv => kv.2.pages.Sorted (· < ·) ∧
        List.Forall (fun x => 1 ≤ x) kv.2.pages)
        (previewPatternStep C case_sensitive use_regex whole_words_only
          st pattern).dict) := by
  rcases foldl_pageStep_spec C pattern case_sensitive use_regex
    whole_words_only (List.range st.doc.length)
    ⟨st.doc, 0, ∅, st.affected, st.events⟩ with ⟨h1, h2, h3⟩
  refine ⟨h1, h2, ?_⟩
  intro hd
  refine dictInsert_forall _ _ _ hd ⟨Finset.sort_sorted_lt _, ?_⟩
  rw [List.forall_iff_forall_mem]
  intro x hx
  have hmem := (Finset.mem_sort (α := ℕ) (· ≤ ·)).mp hx
  exact h3 (by simp) x hmem

theorem foldl_patternStep_spec (C : Collaborators)
    (case_sensitive use_regex whole_words_only : Bool) :
    ∀ (ps : List (List Char)) (st : PreviewState),
      ((ps.foldl (previewPatternStep C case_sensitive use_regex
          whole_words_only) st).doc = st.doc) ∧
      ((ps.foldl (previewPatternStep C case_sensitive use_regex
          whole_words_only) st).events.all (fun ev => !ev.isMutation) =
        st.events.all (fun ev => !ev.isMutation)) ∧
      (List.Forall (fun kv => kv.2.pages.Sorted (· < ·) ∧
          List.Forall (fun x => 1 ≤ x) kv.2.pages) st.dict →
        List.Forall (fun kv => kv.2.pages.Sorted (· < ·) ∧
          List.Forall (fun x => 1 ≤ x) kv.2.pages)
          (ps.foldl (previewPatternStep C case_sensitive use_regex
            whole_words_only) st).dict) := by
  intro ps
  induction ps with
  | nil => intro st; exact ⟨rfl, rfl, fun h => h⟩
  | cons p rest ih =>
      intro st
      rcases previewPatternStep_preserves C case_sensitive use_regex
        whole_words_only st p with ⟨h1, h2, h3⟩
      rcases ih (previewPatternStep C case_sensitive use_regex
        whole_words_only st p) with ⟨i1, i2, i3⟩
      exact ⟨i1.trans h1, i2.trans h2, fun h => i3 (h3 h)⟩

/-- C8: preview is read-only and deterministic: the document comes back
unchanged, running preview again on the returned document yields the
identical summary, and the trace of document-library calls made by
preview contains no mutating event. -/
theorem c8_preview_readonly_and_deterministic :
    ∀ (C : Collaborators) (doc : List PageC)
      (patterns : List (List Char))
      (case_sensitive use_regex whole_words_only : Bool),
      (preview_redactions C doc patterns case_sensitive use_regex
        whole_words_only).1 = doc ∧
      (preview_redactions C
          (preview_redactions C doc patterns case_sensitive use_regex
            whole_words_only).1
          patterns case_sensitive use_regex whole_words_only).2.1 =
        (preview_redactions C doc patterns case_sensitive use_regex
          whole_words_only).2.1 ∧
      (preview_redactions C doc patterns case_sensitive use_regex
        whole_words_only).2.2.all (fun ev => !ev.isMutation) = true := by
  intro C doc patterns case_sensitive use_regex whole_words_only
  rcases foldl_patternStep_spec C case_sensitive use_regex
    whole_words_only patterns ⟨doc, 0, [], ∅, []⟩ with ⟨h1, h2, -⟩
  have hdoc : (preview_redactions C doc patterns case_sensitive
      use_regex whole_words_only).1 = doc := h1
  exact ⟨hdoc, by rw [hdoc], h2⟩

/-- C9: for every document, every pattern sequence and every flag
combination, pages_affected in the preview summary is strictly
ascending with no duplicates, and the pages list of every per-pattern
report is likewise strictly ascending with 1-based page numbers. -/
theorem c9_summary_page_lists_strictly_ascending :
    ∀ (C : Collaborators) (doc : List PageC)
      (patterns : List (List Char))
      (case_sensitive use_regex whole_words_only : Bool),
      ((preview_redactions C doc patterns case_sensitive use_regex
        whole_words_only).2.1.pages_affected.Sorted (· < ·)) ∧
      List.Forall (fun kv =>
        kv.2.pages.Sorted (· < ·) ∧
        List.Forall (fun x => 1 ≤ x) kv.2.pages)
        (preview_redactions C doc patterns case_sensitive use_regex
          whole_words_only).2.1.patterns := by
  intro C doc patterns case_sensitive use_regex whole_words_only
  rcases foldl_patternStep_spec C case_sensitive use_regex
    whole_words_only patterns ⟨doc, 0, [], ∅, []⟩ with ⟨-, -, h3⟩
  exact ⟨Finset.sort_sorted_lt _, h3 trivial⟩
